import Mathlib

/-!
# Verification of the PPTX quiz-generation service (`cloud-run-pptx/main.py`)

This file gives a shallow embedding of the pure logic of the service:

* the text extractor's boilerplate removal (`extract_text_from_pptx`),
* the slide chunker (`chunk_slides`),
* the question validator of `generate_quiz_from_chunk`,
* the job tracker (`update_job_status`, over Firestore field-merge semantics),
* the two presentation→PDF conversion handlers (scratch-file lifecycle),
* the `/process-pptx` pipeline orchestrator.

External effects (the pptx parsing library, the Gemini API, Firestore, the
object store, the LibreOffice subprocess) are modelled as explicit inputs:
the per-slide raw text a presentation parses to, an oracle for the questions
a generation call returns, the outcome of a subprocess run.  Everything from
those boundaries inward is translated from the Python source.

Modelling conventions:

* Python strings are Lean `String`s; `str.strip()` is `pyStrip` (whitespace
  per `Char.isWhitespace`); Python's `\d` is modelled as an ASCII digit.
* A slide's `content` string in Python is the `"\n".join` of its surviving
  lines; we carry the list of lines and join at the points where the Python
  code uses the joined string (truthiness tests and chunk rendering).
* Machine integers do not overflow in this program's ranges; counts are `Nat`
  and the LLM-supplied `answer_index` is `Int` (JSON numbers can be negative).
-/

/-- `str.strip()` from Python: drop whitespace from both ends. -/
def pyStrip (s : String) : String :=
  ⟨((s.toList.dropWhile Char.isWhitespace).reverse.dropWhile Char.isWhitespace).reverse⟩

/-- Case-insensitive literal prefix match; returns the rest of the input on
success.  Models the literal parts of the `re.IGNORECASE` pattern. -/
def matchLitCI : List Char → List Char → Option (List Char)
  | [], l => some l
  | _ :: _, [] => none
  | p :: ps, c :: cs => if c.toLower = p.toLower then matchLitCI ps cs else none

/-- `\s*\d+` at the head of the input (rest of the line unconstrained). -/
def wsThenDigits (l : List Char) : Bool :=
  match l.dropWhile Char.isWhitespace with
  | c :: _ => c.isDigit
  | [] => false

/-- `^\d+\s*/\s*\d+$`: an entire line of the form `N / M`. -/
def slashPageMatch (l : List Char) : Bool :=
  match l with
  | c :: _ =>
    if c.isDigit then
      match (l.dropWhile Char.isDigit).dropWhile Char.isWhitespace with
      | '/' :: rest =>
        match rest.dropWhile Char.isWhitespace with
        | d :: ds => d.isDigit && (ds.dropWhile Char.isDigit).isEmpty
        | [] => false
      | _ => false
    else false
  | [] => false

/-- The page-number pattern of `extract_text_from_pptx`
(`^\d+$|^페이지\s*\d+|^Page\s*\d+|^\d+\s*/\s*\d+$`, `re.IGNORECASE`), applied
with `re.match`, i.e. anchored at the start of the line only. -/
def pageNumMatch (s : String) : Bool :=
  let l := s.toList
  (!l.isEmpty && l.all Char.isDigit)
  || (matchLitCI "페이지".toList l).elim false wsThenDigits
  || (matchLitCI "Page".toList l).elim false wsThenDigits
  || slashPageMatch l

/-- A slide as handed to the boilerplate-removal phase: the collected title
and the list of non-empty stripped text parts (`content_parts` in the
source).  What happens before — reading shapes out of the pptx file — is the
external parsing library. -/
structure RawSlide where
  title : String
  parts : List String
  deriving DecidableEq, Repr

/-- A processed slide record `{'slide_num', 'title', 'content'}`; `content`
is kept as its list of lines (Python stores `"\n".join content`). -/
structure SlideRecord where
  slide_num : Nat
  title : String
  content : List String
  deriving DecidableEq, Repr

/-- Truthiness of `"\n".join parts` in Python: the join is non-empty iff
some part is non-empty or there are at least two parts (the separator). -/
def joinTruthy (parts : List String) : Bool :=
  parts.any (fun p => p != "") || decide (2 ≤ parts.length)

/-- Whether a raw slide enters `slides_data` (`if title or content`). -/
def keepRaw (s : RawSlide) : Bool :=
  s.title != "" || joinTruthy s.parts

/-- Total number of occurrences of `t` among all slides' content parts: the
count `footer_candidates[t]` reaches (only texts shorter than 50 characters
are entered into the dict, so for `t.length < 50` this is exactly the dict
entry, and for longer `t` the dict has no entry). -/
def occCount (slides : List RawSlide) (t : String) : Nat :=
  (slides.map (fun s => s.parts.count t)).sum

/-- The footer test of `extract_text_from_pptx`: `t` is in
`footers_to_remove` iff it was a candidate (shorter than 50 characters) and
`count >= total_slides * 0.5 and count > 2`.  `count ≥ total * 0.5` on
integers compared through exact binary floats is `total ≤ 2 * count`. -/
def isFooter (slides : List RawSlide) (total : Nat) (t : String) : Bool :=
  decide (t.length < 50) && decide (total ≤ 2 * occCount slides t)
    && decide (2 < occCount slides t)

/-- One content line survives the final filter iff it is not a detected
footer and its stripped form does not match the page-number pattern. -/
def lineKept (slides : List RawSlide) (total : Nat) (line : String) : Bool :=
  !isFooter slides total line && !pageNumMatch (pyStrip line)

/-- `total_slides = len(slides_data)`: the number of slides that survive the
`if title or content` check (the footer threshold is computed against it). -/
def keptTotal (slides : List RawSlide) : Nat :=
  ((List.enumFrom 1 slides).filter (fun p => keepRaw p.2)).length

/-- `extract_text_from_pptx`, from the point where each slide's raw text has
been collected: number the slides from 1, keep those with a title or
content, detect recurring short footers over all slides' parts, and filter
every kept slide's lines. -/
def extract_text_from_pptx (slides : List RawSlide) : List SlideRecord :=
  ((List.enumFrom 1 slides).filter (fun p => keepRaw p.2)).map (fun p =>
    { slide_num := p.1, title := p.2.title
      content := p.2.parts.filter (lineKept slides (keptTotal slides)) })

/-- The number of slides whose parts contain the line `L` (the quantity the
spec's footer rule is phrased in). -/
def slidesContaining (slides : List RawSlide) (L : String) : Nat :=
  (slides.filter (fun s => decide (L ∈ s.parts))).length

/-! ## Chunker (`chunk_slides`) -/

/-- The text block one slide contributes to its chunk:
`"\n[슬라이드 N]\n"`, then `"제목: title\n"` if the title is non-empty, then
the content followed by a newline if the content string is non-empty. -/
def renderSlide (s : SlideRecord) : String :=
  "\n[슬라이드 " ++ toString s.slide_num ++ "]\n"
    ++ (if s.title != "" then "제목: " ++ s.title ++ "\n" else "")
    ++ (if joinTruthy s.content then String.intercalate "\n" s.content ++ "\n" else "")

/-- The accumulated `chunk_text` for one group of slides. -/
def renderChunk : List SlideRecord → String
  | [] => ""
  | s :: rest => renderSlide s ++ renderChunk rest

/-- Worker for `groupChunks`: structural recursion on a step counter that
starts at the list length (each step consumes at least one element when the
window is positive, so the counter never runs out on reachable inputs). -/
def groupChunksGo (k : Nat) : Nat → List SlideRecord → List (List SlideRecord)
  | _, [] => []
  | 0, _ :: _ => []
  | fuel + 1, l@(_ :: _) => l.take k :: groupChunksGo k fuel (l.drop k)

/-- The groups `slides_data[i:i+chunk_size]` for `i in range(0, len, chunk_size)`:
`l.take k :: groupChunks k (l.drop k)` on a non-empty list (see
`groupChunks_cons`), `[]` on the empty list.  Python's `range` rejects step
0; with `k = 0` this model returns after `length` steps instead (the only
call site passes 3). -/
def groupChunks (k : Nat) (l : List SlideRecord) : List (List SlideRecord) :=
  groupChunksGo k l.length l

/-- `chunk_slides`: render each group, keep the stripped text when it is
non-blank. -/
def chunk_slides (slides : List SlideRecord) (chunk_size : Nat) : List String :=
  (groupChunks chunk_size slides).filterMap (fun g =>
    let t := pyStrip (renderChunk g)
    if t != "" then some t else none)

/-! ## Question validation (`generate_quiz_from_chunk`) -/

/-- One entry of the JSON array parsed out of the model reply.  A field is
`none` when the key is absent from the dict. -/
structure Candidate where
  question : Option String
  choices : Option (List String)
  answer_index : Option Int
  explanation : Option String
  topic : Option String
  deriving DecidableEq, Repr

/-- A validated question as appended to `validated_questions`. -/
structure QuestionRecord where
  question : String
  choices : List String
  answer_index : Int
  explanation : String
  topic : String
  deriving DecidableEq, Repr

/-- The validation step: all of `question`, `choices`, `answer_index`,
`explanation` present, at least 4 choices, `0 <= answer_index < len(choices)`
— checked against the choices as parsed — then the stored record truncates
`choices` to the first 5 and defaults `topic` to `""`. -/
def validateCandidate (q : Candidate) : Option QuestionRecord :=
  match q.question, q.choices, q.answer_index, q.explanation with
  | some qu, some cs, some ai, some ex =>
    if 4 ≤ cs.length ∧ 0 ≤ ai ∧ ai < cs.length then
      some { question := qu, choices := cs.take 5, answer_index := ai
             explanation := ex, topic := q.topic.getD "" }
    else none
  | _, _, _, _ => none

/-- The validated questions a successfully parsed reply yields. -/
def validateQuestions (qs : List Candidate) : List QuestionRecord :=
  qs.filterMap validateCandidate

/-! ## Job tracker (`update_job_status`)

A Firestore document is a field map; `DocumentReference.update` merges the
given fields into the existing document (each named field is overwritten,
every other field is left untouched).  `firestore.SERVER_TIMESTAMP` is an
opaque sentinel resolved server-side. -/

/-- A Firestore field value, as far as this service writes them. -/
inductive FVal where
  | s : String → FVal
  | n : Nat → FVal
  | serverTimestamp : FVal
  deriving DecidableEq, Repr

/-- A Firestore document: a map from field name to value. -/
def FDoc : Type := String → Option FVal

/-- `DocumentReference.update(update_data)`: set each listed field, in
order, leaving all other fields of the document as they were. -/
def firestoreUpdate (doc : FDoc) (upd : List (String × FVal)) : FDoc :=
  upd.foldl (fun d kv => fun k => if k = kv.1 then some kv.2 else d k) doc

/-- `update_job_status`: build `{'status', 'progress', 'updatedAt'}`, merge
in the keyword arguments (`dict.update`, later keys win), and apply the
result to the job document with Firestore `update`. -/
def update_job_status (doc : FDoc) (status : String) (progress : Nat)
    (kwargs : List (String × FVal)) : FDoc :=
  firestoreUpdate doc
    ([("status", FVal.s status), ("progress", FVal.n progress),
      ("updatedAt", FVal.serverTimestamp)] ++ kwargs)

/-! ## Conversion endpoints (`convert_pdf`, `convert_to_pdf_direct`)

The LibreOffice subprocess is an external event; the handler's observable
behaviour is the HTTP status it maps each outcome to and which scratch
files are still on disk once the response is done.  Scratch resources are
tracked by label: the `NamedTemporaryFile` pptx copy, the `mkdtemp` output
directory, and the converted pdf inside it. -/

/-- Outcome of the `subprocess.run(['libreoffice', ...], timeout=120)` call. -/
inductive SubprocOutcome where
  | timeout
  | exitFailure (stderr : String)
  | success
  deriving DecidableEq, Repr

/-- Result of one conversion request: HTTP status and the scratch resources
still present after the response completes. -/
structure ConvResult where
  status : Nat
  scratchLeft : List String
  deriving DecidableEq, Repr

/-- Remove one scratch resource (`os.unlink` / `os.rmdir`). -/
def rmScratch (live : List String) (r : String) : List String :=
  live.filter (fun x => x != r)

/-- `/convert-to-pdf-direct` after JSON parsing: `produced` says whether the
subprocess left `pdf_path` on disk (only queried on the success branch).
Trace: tempfile pptx created; `try:` mkdtemp; subprocess; on timeout /
non-zero exit the exception escapes past the inner `finally` (which unlinks
the pptx) to the matching `except`; on success with no output file the
handler returns 500 through the same `finally`; on success with output the
pdf is read and unlinked, the directory removed, and 200 returned. -/
def convert_to_pdf_direct (hasPayload : Bool) (sub : SubprocOutcome)
    (produced : Bool) : ConvResult :=
  if !hasPayload then { status := 400, scratchLeft := [] }
  else
    let live := ["pptx_tmp"] ++ ["output_dir"]
    match sub with
    | .timeout => { status := 504, scratchLeft := rmScratch live "pptx_tmp" }
    | .exitFailure _ => { status := 500, scratchLeft := rmScratch live "pptx_tmp" }
    | .success =>
      if !produced then { status := 500, scratchLeft := rmScratch live "pptx_tmp" }
      else
        let live := live ++ ["output_pdf"]
        let live := rmScratch (rmScratch live "output_pdf") "output_dir"
        { status := 200, scratchLeft := rmScratch live "pptx_tmp" }

/-- `/convert-pdf` (multipart + Firebase auth).  Identical conversion core;
on success the pdf and output directory are deleted by the response's
`call_on_close` hook, i.e. by the time the response is complete. -/
def convert_pdf (authed : Bool) (hasFile : Bool) (sub : SubprocOutcome)
    (produced : Bool) : ConvResult :=
  if !authed then { status := 401, scratchLeft := [] }
  else if !hasFile then { status := 400, scratchLeft := [] }
  else
    let live := ["pptx_tmp"] ++ ["output_dir"]
    match sub with
    | .timeout => { status := 504, scratchLeft := rmScratch live "pptx_tmp" }
    | .exitFailure _ => { status := 500, scratchLeft := rmScratch live "pptx_tmp" }
    | .success =>
      if !produced then { status := 500, scratchLeft := rmScratch live "pptx_tmp" }
      else
        let live := live ++ ["output_pdf"]
        let live := rmScratch live "pptx_tmp"
        let live := rmScratch (rmScratch live "output_pdf") "output_dir"
        { status := 200, scratchLeft := live }

/-! ## Pipeline orchestrator (`process_pptx`)

External effects are inputs: `raw` is what the downloaded presentation
parses to, `gen` is the oracle for `generate_quiz_from_chunk` (with the
run's difficulty and keywords fixed), `downloadError` injects an exception
out of the storage download (representative of any unhandled exception in
the body, all of which reach the same top-level `except`), and `newQuizId`
is the id Firestore mints for `db.collection('quizzes').document()`.  The
observables are the HTTP status, the sequence of job-status updates, the
quiz document written (if any), and the number of generation calls made. -/

/-- One `update_job_status` call as issued by the orchestrator. -/
structure JobUpdate where
  status : String
  progress : Nat
  message : Option String
  error : Option String
  quizId : Option String
  questionCount : Option Nat
  deriving DecidableEq, Repr

/-- A `processing` update carrying only a message. -/
def procUpd (progress : Nat) (msg : String) : JobUpdate :=
  { status := "processing", progress := progress, message := some msg
    error := none, quizId := none, questionCount := none }

/-- A `failed` update: the source always writes progress 0 and an error. -/
def failUpd (err : String) : JobUpdate :=
  { status := "failed", progress := 0, message := none
    error := some err, quizId := none, questionCount := none }

/-- One entry of the persisted `quiz_data['questions']` list. -/
structure StoredQuestion where
  id : String
  qtype : String
  text : String
  choices : List String
  answer : Int
  explanation : String
  topic : String
  deriving DecidableEq, Repr

/-- The persisted quiz document (server timestamps omitted). -/
structure QuizData where
  title : String
  qtype : String
  tags : List String
  questions : List StoredQuestion
  creatorId : String
  isPublic : Bool
  totalQuestions : Nat
  sourceType : String
  slideCount : Nat
  keywords : List String
  deriving DecidableEq, Repr

/-- What one `/process-pptx` request leaves behind. -/
structure PipelineResult where
  status : Nat
  updates : List JobUpdate
  quizWritten : Option QuizData
  genCalls : Nat
  deriving DecidableEq, Repr

/-- The quiz-generation loop: extend the accumulator with each chunk's
questions and break as soon as `question_count` is reached.  Returns the
accumulator and the number of chunks actually visited (= generation calls). -/
def runChunks (gen : String → List QuestionRecord) (target : Nat)
    (acc : List QuestionRecord) : List String → List QuestionRecord × Nat
  | [] => (acc, 0)
  | c :: rest =>
    let acc2 := acc ++ gen c
    if target ≤ acc2.length then (acc2, 1)
    else
      let r := runChunks gen target acc2 rest
      (r.1, r.2 + 1)

/-- Python truthiness of an optional string field of the request body. -/
def truthy : Option String → Bool
  | none => false
  | some s => s != ""

/-- The per-iteration progress `25 + int((i / len(chunks)) * 60)`, modelled
as `25 + i * 60 / total` (the float computation truncates the same value up
to float rounding; no claim depends on these figures). -/
def loopProgress (i total : Nat) : Nat := 25 + i * 60 / total

/-- The `/process-pptx` handler from request parsing onward. -/
def process_pptx (jobId storagePath userId : Option String)
    (folderName : String) (questionCount : Nat)
    (tags keywords : List String) (raw : List RawSlide)
    (gen : String → List QuestionRecord) (downloadError : Option String)
    (newQuizId : String) : PipelineResult :=
  if !(truthy jobId && truthy storagePath && truthy userId) then
    { status := 400, updates := [], quizWritten := none, genCalls := 0 }
  else
    let u5 := procUpd 5 "PPTX 다운로드 중..."
    match downloadError with
    | some msg =>
      { status := 500, updates := [u5, failUpd msg], quizWritten := none, genCalls := 0 }
    | none =>
      let u15 := procUpd 15 "슬라이드 텍스트 추출 중..."
      let slides := extract_text_from_pptx raw
      if slides.isEmpty then
        { status := 400
          updates := [u5, u15, failUpd "슬라이드에서 텍스트를 찾을 수 없습니다."]
          quizWritten := none, genCalls := 0 }
      else
        let chunks := chunk_slides slides 3
        let kwInfo :=
          if !keywords.isEmpty then " (키워드 " ++ toString keywords.length ++ "개)" else ""
        let u25 := procUpd 25 (toString slides.length ++ "개 슬라이드에서 "
          ++ toString chunks.length ++ "개 청크 생성됨" ++ kwInfo)
        let r := runChunks gen questionCount [] chunks
        let loopUpdates := (List.range r.2).map (fun i =>
          procUpd (loopProgress i chunks.length)
            ("퀴즈 생성 중... (" ++ toString (i + 1) ++ "/" ++ toString chunks.length ++ ")"))
        let allQ := r.1.take questionCount
        if allQ.isEmpty then
          { status := 500
            updates := [u5, u15, u25] ++ loopUpdates ++ [failUpd "문제 생성에 실패했습니다."]
            quizWritten := none, genCalls := r.2 }
        else
          let u90 := procUpd 90 "퀴즈 저장 중..."
          let quiz : QuizData :=
            { title := folderName, qtype := "learning", tags := tags
              questions := allQ.enum.map (fun p =>
                { id := "q" ++ toString (p.1 + 1), qtype := "multiple"
                  text := p.2.question, choices := p.2.choices
                  answer := p.2.answer_index, explanation := p.2.explanation
                  topic := p.2.topic })
              creatorId := userId.getD "", isPublic := false
              totalQuestions := allQ.length, sourceType := "pptx"
              slideCount := slides.length, keywords := keywords }
          let uDone : JobUpdate :=
            { status := "completed", progress := 100, message := some "퀴즈 생성 완료!"
              error := none, quizId := some newQuizId, questionCount := some allQ.length }
          { status := 200
            updates := [u5, u15, u25] ++ loopUpdates ++ [u90, uDone]
            quizWritten := some quiz, genCalls := r.2 }


/-- Total number of questions the generator yields over the first `m`
chunks (the accumulator's length after `m` loop iterations, before any
break). -/
def prefixLen (gen : String → List QuestionRecord) (chunks : List String) (m : Nat) : Nat :=
  ((chunks.take m).map (fun c => (gen c).length)).sum

/-! ## Supporting lemmas -/

theorem mem_dropWhile_of_mem {p : Char → Bool} {c : Char} (hpc : p c = false) :
    ∀ {l : List Char}, c ∈ l → c ∈ l.dropWhile p := by
  intro l
  induction l with
  | nil => intro h; cases h
  | cons a t ih =>
    intro hc
    rw [List.dropWhile_cons]
    split
    · next ha =>
      rcases List.mem_cons.mp hc with rfl | ht
      · rw [hpc] at ha; cases ha
      · exact ih ht
    · exact hc

theorem pyStrip_ne_empty {s : String} {c : Char} (hc : c ∈ s.toList)
    (hw : c.isWhitespace = false) : pyStrip s ≠ "" := by
  have h1 : c ∈ ((s.toList.dropWhile Char.isWhitespace).reverse.dropWhile
      Char.isWhitespace).reverse :=
    List.mem_reverse.mpr
      (mem_dropWhile_of_mem hw (List.mem_reverse.mpr (mem_dropWhile_of_mem hw hc)))
  intro h
  have h2 : ((s.toList.dropWhile Char.isWhitespace).reverse.dropWhile
      Char.isWhitespace).reverse = ([] : List Char) := congrArg String.data h
  rw [h2] at h1
  cases h1

theorem extract_lines_kept {raw : List RawSlide} {s : SlideRecord}
    (hs : s ∈ extract_text_from_pptx raw) :
    ∀ line ∈ s.content, lineKept raw (keptTotal raw) line = true := by
  intro line hline
  rcases List.mem_map.mp hs with ⟨p, _, rfl⟩
  exact (List.mem_filter.mp hline).2

theorem mem_enumFrom_of_mem {α : Type} {a : α} :
    ∀ (n : Nat) {l : List α}, a ∈ l → ∃ i, (i, a) ∈ List.enumFrom n l := by
  intro n l
  induction l generalizing n with
  | nil => intro h; cases h
  | cons x t ih =>
    intro hc
    rcases List.mem_cons.mp hc with rfl | ht
    · exact ⟨n, List.mem_cons_self _ _⟩
    · rcases ih (n + 1) ht with ⟨i, hi⟩
      exact ⟨i, List.mem_cons_of_mem _ hi⟩

theorem extract_mem_of_kept {raw : List RawSlide} {s : RawSlide} (hs : s ∈ raw)
    (hk : keepRaw s = true) :
    ∃ n, (⟨n, s.title, s.parts.filter (lineKept raw (keptTotal raw))⟩ : SlideRecord)
      ∈ extract_text_from_pptx raw := by
  obtain ⟨i, hi⟩ := mem_enumFrom_of_mem 1 hs
  exact ⟨i, List.mem_map.mpr ⟨(i, s), List.mem_filter.mpr ⟨hi, hk⟩, rfl⟩⟩

theorem containing_le_occCount (raw : List RawSlide) (L : String) :
    slidesContaining raw L ≤ occCount raw L := by
  induction raw with
  | nil => simp [slidesContaining, occCount]
  | cons s t ih =>
    simp only [slidesContaining, occCount, List.map_cons, List.sum_cons,
      List.filter_cons] at ih ⊢
    split
    · next h =>
      have hmem : L ∈ s.parts := of_decide_eq_true h
      have hc : 0 < s.parts.count L := List.count_pos_iff.mpr hmem
      simp only [List.length_cons]
      omega
    · omega

theorem keptTotal_le (raw : List RawSlide) : keptTotal raw ≤ raw.length := by
  calc keptTotal raw ≤ (List.enumFrom 1 raw).length := List.length_filter_le _ _
    _ = raw.length := List.enumFrom_length

theorem validateCandidate_eq_some {c : Candidate} {r : QuestionRecord}
    (h : validateCandidate c = some r) :
    ∃ qu cs ai ex, c.question = some qu ∧ c.choices = some cs ∧
      c.answer_index = some ai ∧ c.explanation = some ex ∧
      (4 ≤ cs.length ∧ 0 ≤ ai ∧ ai < (cs.length : Int)) ∧
      r = ⟨qu, cs.take 5, ai, ex, c.topic.getD ""⟩ := by
  rcases c with ⟨q, ch, ai, ex, tp⟩
  cases q <;> cases ch <;> cases ai <;> cases ex <;>
      simp only [validateCandidate] at h <;>
    first
      | exact Option.noConfusion h
      | skip
  split at h
  · next hcond =>
    cases h
    exact ⟨_, _, _, _, rfl, rfl, rfl, rfl, hcond, rfl⟩
  · exact Option.noConfusion h

theorem validateCandidate_eq_none {c : Candidate} {cs : List String}
    (hcs : c.choices = some cs)
    (hbad : ∀ ai, c.answer_index = some ai →
      ¬(4 ≤ cs.length ∧ 0 ≤ ai ∧ ai < (cs.length : Int))) :
    validateCandidate c = none := by
  rcases c with ⟨q, ch, ai, ex, tp⟩
  cases hcs
  cases q <;> cases ai <;> cases ex <;> simp only [validateCandidate]
  next qu ai2 ex2 =>
  rw [if_neg (hbad ai2 rfl)]

/-! ## Claims -/

/-- C1, counterexample.  The validator range-checks `answer_index` against
the choices list as parsed, *before* the truncation to 5 entries: a
candidate with 6 choices and `answer_index = 5` is accepted, and the stored
record has 5 choices with `answer_index = 5`, outside `[0, len(choices))`
for the stored sequence.  This falsifies the claim as stated. -/
theorem validate_index_outside_stored_choices :
    ∃ r ∈ validateQuestions
      [⟨some "q", some ["a", "b", "c", "d", "e", "f"], some 5, some "e", none⟩],
      ¬ (r.answer_index < (r.choices.length : Int)) := by decide

/-- C1, amended.  Every accepted record has the required fields, a stored
choices list of 4–5 entries, and `0 ≤ answer_index < len(choices)` where
`choices` is the candidate's list *before* truncation to at most 5; when the
candidate supplied at most 5 choices this is the stored list, so the stored
index is then in range.  A candidate with only 3 choices is rejected, and
one whose `answer_index` equals the length of its choices list is rejected. -/
theorem generate_quiz_validation (cands : List Candidate) :
    (∀ r ∈ validateQuestions cands,
        4 ≤ r.choices.length ∧ r.choices.length ≤ 5 ∧ 0 ≤ r.answer_index
          ∧ ∃ c ∈ cands, ∃ cs, c.choices = some cs ∧ r.choices = cs.take 5
              ∧ r.answer_index < (cs.length : Int)
              ∧ (cs.length ≤ 5 → r.answer_index < (r.choices.length : Int)))
  ∧ (∀ c : Candidate, ∀ cs, c.choices = some cs → cs.length = 3 →
        validateCandidate c = none)
  ∧ (∀ c : Candidate, ∀ cs, c.choices = some cs →
        c.answer_index = some (cs.length : Int) → validateCandidate c = none) := by
  refine ⟨?_, ?_, ?_⟩
  · intro r hr
    rcases List.mem_filterMap.mp hr with ⟨c, hc, hv⟩
    obtain ⟨qu, cs, ai, ex, -, hcs, -, -, ⟨h4, h0, hlt⟩, rfl⟩ :=
      validateCandidate_eq_some hv
    refine ⟨?_, ?_, h0, c, hc, cs, hcs, rfl, hlt, ?_⟩
    · simp only [List.length_take]; omega
    · simp only [List.length_take]; omega
    · intro h5
      dsimp only
      simp only [List.length_take]
      omega
  · intro c cs hcs h3
    refine validateCandidate_eq_none hcs ?_
    rintro ai - ⟨h4, -, -⟩
    omega
  · intro c cs hcs hai
    refine validateCandidate_eq_none hcs ?_
    rintro ai hai2 ⟨-, -, hlt⟩
    rw [hai2] at hai
    cases hai
    exact absurd hlt (lt_irrefl _)

/-- C1, witness for the amended theorem: a 3-choice candidate is rejected. -/
theorem generate_quiz_validation_witness :
    validateCandidate ⟨some "q", some ["a", "b", "c"], some 1, some "e", none⟩ = none :=
  (generate_quiz_validation []).2.1 _ ["a", "b", "c"] rfl rfl

theorem firestoreUpdate_not_mem (doc : FDoc) (k : String) :
    ∀ upd : List (String × FVal), k ∉ upd.map Prod.fst →
      firestoreUpdate doc upd k = doc k := by
  intro upd
  induction upd generalizing doc with
  | nil => intro _; rfl
  | cons kv rest ih =>
    intro hk
    simp only [List.map_cons, List.mem_cons, not_or] at hk
    have step : firestoreUpdate doc (kv :: rest) =
        firestoreUpdate (fun k2 => if k2 = kv.1 then some kv.2 else doc k2) rest := rfl
    rw [step, ih _ hk.2]
    simp only [if_neg hk.1]

/-- C4, counterexample.  `update_job_status` goes through Firestore
`DocumentReference.update`, which merges the given fields into the existing
document.  A job record holding a stale `error` field keeps it across a
later call that does not supply `error`: the update does not replace the
whole snapshot.  This falsifies the claim as stated. -/
theorem update_job_status_keeps_stale_error :
    update_job_status (fun k => if k = "error" then some (FVal.s "boom") else none)
      "completed" 100 [] "error" = some (FVal.s "boom") := by rfl

/-- C4, amended.  `update_job_status` sets `status`, `progress`, `updatedAt`
and any supplied extra fields to the new values, and every field *not*
supplied in the call keeps its previous value — the update merges into the
previous snapshot rather than replacing it, so fields from earlier updates
(such as an error string) survive unless overwritten. -/
theorem update_job_status_merges (doc : FDoc) (st : String) (p : Nat)
    (kwargs : List (String × FVal)) :
    (∀ k, k ≠ "status" → k ≠ "progress" → k ≠ "updatedAt" →
        k ∉ kwargs.map Prod.fst → update_job_status doc st p kwargs k = doc k)
  ∧ ("status" ∉ kwargs.map Prod.fst →
      update_job_status doc st p kwargs "status" = some (FVal.s st))
  ∧ ("progress" ∉ kwargs.map Prod.fst →
      update_job_status doc st p kwargs "progress" = some (FVal.n p))
  ∧ ("updatedAt" ∉ kwargs.map Prod.fst →
      update_job_status doc st p kwargs "updatedAt" = some FVal.serverTimestamp) := by
  have hsplit : ∀ k, update_job_status doc st p kwargs k =
      firestoreUpdate
        (firestoreUpdate doc [("status", FVal.s st), ("progress", FVal.n p),
          ("updatedAt", FVal.serverTimestamp)]) kwargs k := by
    intro k
    unfold update_job_status firestoreUpdate
    rw [List.foldl_append]
  refine ⟨?_, ?_, ?_, ?_⟩
  · intro k h1 h2 h3 h4
    rw [hsplit k, firestoreUpdate_not_mem _ _ _ h4]
    simp only [firestoreUpdate, List.foldl]
    simp [h1, h2, h3]
  · intro h
    rw [hsplit _, firestoreUpdate_not_mem _ _ _ h]
    simp [firestoreUpdate, List.foldl]
  · intro h
    rw [hsplit _, firestoreUpdate_not_mem _ _ _ h]
    simp [firestoreUpdate, List.foldl]
  · intro h
    rw [hsplit _, firestoreUpdate_not_mem _ _ _ h]
    simp [firestoreUpdate, List.foldl]

/-- C4, witness: with no extra fields supplied, a field outside the update
(`error`) keeps its previous value. -/
theorem update_job_status_merges_witness :
    update_job_status (fun k => if k = "error" then some (FVal.s "old") else none)
      "processing" 15 [] "error"
    = (fun k => if k = "error" then some (FVal.s "old") else none) "error" :=
  (update_job_status_merges _ "processing" 15 []).1 "error"
    (by decide) (by decide) (by decide) (by simp)

/-- C3.  The error mapping of both conversion endpoints is as specified
(timeout → 504, non-zero exit → 500, missing output file → 500), but the
cleanup half of the claim fails on the code: on the timeout path — and
likewise on the non-zero-exit and missing-output paths — the `mkdtemp`
output directory is never removed (only the pptx scratch file is unlinked
by the inner `finally`), so scratch state survives the response.  The code
removes the directory on the success path, showing the cleanup intent; the
error paths are a slip.  Evaluated here at the failing input. -/
theorem convert_endpoints_timeout_leaks_output_dir :
    (∀ err : String,
        (convert_to_pdf_direct true (.exitFailure err) false).status = 500
      ∧ (convert_pdf true true (.exitFailure err) false).status = 500)
  ∧ (convert_to_pdf_direct true .success false).status = 500
  ∧ (convert_pdf true true .success false).status = 500
  ∧ convert_to_pdf_direct true .timeout false
      = { status := 504, scratchLeft := ["output_dir"] }
  ∧ convert_pdf true true .timeout false
      = { status := 504, scratchLeft := ["output_dir"] } := by
  exact ⟨fun _ => ⟨rfl, rfl⟩, rfl, rfl, rfl, rfl⟩

/-- C6.  Lines matching the page-number pattern — a bare integer (`"3"`),
`"Page 3"`, `"3 / 10"`, `"페이지 3"` — are all matched by the compiled
pattern, and no line of any slide's processed content matches it: the final
filter removes such lines unconditionally, independent of recurrence. -/
theorem page_number_lines_removed :
    (pageNumMatch (pyStrip "3") = true ∧ pageNumMatch (pyStrip "Page 3") = true
      ∧ pageNumMatch (pyStrip "3 / 10") = true ∧ pageNumMatch (pyStrip "페이지 3") = true)
  ∧ ∀ (raw : List RawSlide), ∀ s ∈ extract_text_from_pptx raw, ∀ line ∈ s.content,
      pageNumMatch (pyStrip line) = false := by
  refine ⟨by decide, ?_⟩
  intro raw s hs line hline
  have h := extract_lines_kept hs line hline
  simp only [lineKept, Bool.and_eq_true, Bool.not_eq_true'] at h
  exact h.2

/-- C6, witness: a slide containing `"Page 3"` and `"hello"`; applied to the
surviving line of the extractor's output for it. -/
theorem page_number_lines_removed_witness :
    pageNumMatch (pyStrip "hello") = false :=
  page_number_lines_removed.2 [⟨"t", ["Page 3", "hello"]⟩]
    ⟨1, "t", ["hello"]⟩ (by decide) "hello" (by decide)

/-- C5, counterexample.  The footer counter counts *occurrences*, not
slides: with 4 kept slides and the short line `"Confidential"` appearing
twice in each of exactly 2 slides, its count is 4 ≥ half the slides and
> 2, so it is stripped everywhere — yet it "appears in exactly 2 slides",
which the claim says must be retained.  This falsifies the retention half
of the claim as stated. -/
theorem footer_in_two_slides_removed :
    ("Confidential".length < 50
      ∧ slidesContaining
          [⟨"", ["Confidential", "Confidential", "alpha body"]⟩,
           ⟨"", ["Confidential", "Confidential", "beta body"]⟩,
           ⟨"", ["gamma body"]⟩, ⟨"", ["delta body"]⟩] "Confidential" = 2)
  ∧ ∀ s ∈ extract_text_from_pptx
        [⟨"", ["Confidential", "Confidential", "alpha body"]⟩,
         ⟨"", ["Confidential", "Confidential", "beta body"]⟩,
         ⟨"", ["gamma body"]⟩, ⟨"", ["delta body"]⟩],
      "Confidential" ∉ s.content := by decide

/-- C5, amended.  Removal direction as claimed: a line shorter than 50
characters occurring in at least half of all slides and at least 3 times in
total is absent from every processed slide.  Retention direction amended:
what the code counts is total occurrences, so a short line is retained when
it occurs at most twice *in total* (in particular once in each of exactly 2
slides); a line in exactly 2 slides can still be stripped if it repeats
within them (see the counterexample). -/
theorem footer_removal (raw : List RawSlide) (L : String) (hlen : L.length < 50) :
    ((raw.length ≤ 2 * slidesContaining raw L ∧ 3 ≤ occCount raw L) →
        ∀ s ∈ extract_text_from_pptx raw, L ∉ s.content)
  ∧ ((occCount raw L = 2 ∧ pageNumMatch (pyStrip L) = false ∧ L ≠ "") →
        ∀ s ∈ raw, L ∈ s.parts →
          ∃ s' ∈ extract_text_from_pptx raw, L ∈ s'.content) := by
  constructor
  · rintro ⟨hhalf, hocc⟩ s hs hmem
    have hkept := extract_lines_kept hs L hmem
    have hfoot : isFooter raw (keptTotal raw) L = true := by
      have h1 := keptTotal_le raw
      have h2 := containing_le_occCount raw L
      simp only [isFooter, Bool.and_eq_true, decide_eq_true_eq]
      omega
    simp [lineKept, hfoot] at hkept
  · rintro ⟨hocc, hpn, hne⟩ s hs hmem
    have hkeep : keepRaw s = true := by
      simp only [keepRaw, joinTruthy, Bool.or_eq_true, List.any_eq_true]
      exact Or.inr (Or.inl ⟨L, hmem, by simpa using hne⟩)
    obtain ⟨n, hn⟩ := extract_mem_of_kept hs hkeep
    refine ⟨_, hn, ?_⟩
    refine List.mem_filter.mpr ⟨hmem, ?_⟩
    have hfoot : isFooter raw (keptTotal raw) L = false := by
      simp [isFooter, hocc]
    simp [lineKept, hfoot, hpn]

/-- C5, witness for the removal direction: a 3-slide deck with the short
line `"FooterX"` on every slide; the theorem strips it from the first
processed slide. -/
theorem footer_removal_witness :
    "FooterX" ∉ (SlideRecord.mk 1 "" ["alpha body"]).content :=
  (footer_removal
      [⟨"", ["FooterX", "alpha body"]⟩, ⟨"", ["FooterX", "beta body"]⟩,
       ⟨"", ["FooterX", "gamma body"]⟩] "FooterX" (by decide)).1
    (by decide) ⟨1, "", ["alpha body"]⟩ (by decide)

theorem groupChunks_nil (k : Nat) : groupChunks k [] = [] := rfl

theorem groupChunksGo_fuel (k : Nat) :
    ∀ (fuel1 : Nat) (l : List SlideRecord) (fuel2 : Nat),
      l.length ≤ fuel1 → l.length ≤ fuel2 →
      groupChunksGo (k + 1) fuel1 l = groupChunksGo (k + 1) fuel2 l := by
  intro fuel1
  induction fuel1 with
  | zero =>
    intro l fuel2 h1 h2
    have : l = [] := List.eq_nil_of_length_eq_zero (Nat.le_zero.mp h1)
    subst this
    cases fuel2 <;> rfl
  | succ f ih =>
    intro l fuel2 h1 h2
    cases l with
    | nil => cases fuel2 <;> rfl
    | cons a t =>
      obtain ⟨f2, rfl⟩ : ∃ f2, fuel2 = f2 + 1 :=
        ⟨fuel2 - 1, by simp at h2; omega⟩
      simp only [groupChunksGo]
      congr 1
      apply ih
      · simp only [List.length_drop, List.length_cons]
        simp only [List.length_cons] at h1
        omega
      · simp only [List.length_drop, List.length_cons]
        simp only [List.length_cons] at h2
        omega

theorem groupChunks_cons (k : Nat) (l : List SlideRecord) (h : l ≠ []) :
    groupChunks (k + 1) l = l.take (k + 1) :: groupChunks (k + 1) (l.drop (k + 1)) := by
  cases l with
  | nil => exact absurd rfl h
  | cons a t =>
    show groupChunksGo (k + 1) (t.length + 1) (a :: t) = _
    simp only [groupChunksGo]
    congr 1
    apply groupChunksGo_fuel
    · simp only [List.length_drop, List.length_cons]
      omega
    · exact le_rfl

theorem groupChunks_join :
    ∀ (n k : Nat) (l : List SlideRecord), l.length ≤ n →
      (groupChunks (k + 1) l).flatten = l := by
  intro n
  induction n with
  | zero =>
    intro k l hl
    have : l = [] := List.eq_nil_of_length_eq_zero (Nat.le_zero.mp hl)
    subst this
    simp [groupChunks_nil]
  | succ n ih =>
    intro k l hl
    cases l with
    | nil => simp [groupChunks_nil]
    | cons a t =>
      rw [groupChunks_cons k _ (by simp), List.flatten_cons,
        ih k _ (by simp only [List.length_drop]; simp at hl ⊢; omega)]
      exact List.take_append_drop _ _

theorem groupChunks_groups :
    ∀ (n k : Nat) (l : List SlideRecord), l.length ≤ n →
      ∀ g ∈ groupChunks (k + 1) l, g.length ≤ k + 1 ∧ g ≠ [] := by
  intro n
  induction n with
  | zero =>
    intro k l hl
    have : l = [] := List.eq_nil_of_length_eq_zero (Nat.le_zero.mp hl)
    subst this
    simp [groupChunks_nil]
  | succ n ih =>
    intro k l hl
    cases l with
    | nil => simp [groupChunks_nil]
    | cons a t =>
      rw [groupChunks_cons k _ (by simp)]
      intro g hg
      rcases List.mem_cons.mp hg with rfl | hrec
      · exact ⟨List.length_take_le _ _, by simp [List.take_succ_cons]⟩
      · exact ih k _ (by simp only [List.length_drop]; simp at hl ⊢; omega) g hrec

theorem groupChunks_length :
    ∀ (n k : Nat) (l : List SlideRecord), l.length ≤ n →
      (groupChunks (k + 1) l).length = (l.length + k) / (k + 1) := by
  intro n
  induction n with
  | zero =>
    intro k l hl
    have : l = [] := List.eq_nil_of_length_eq_zero (Nat.le_zero.mp hl)
    subst this
    simp [groupChunks_nil, Nat.div_eq_of_lt (Nat.lt_succ_self k)]
  | succ n ih =>
    intro k l hl
    cases l with
    | nil => simp [groupChunks_nil, Nat.div_eq_of_lt (Nat.lt_succ_self k)]
    | cons a t =>
      rw [groupChunks_cons k _ (by simp), List.length_cons,
        ih k _ (by simp only [List.length_drop]; simp at hl ⊢; omega)]
      simp only [List.length_drop, List.length_cons]
      have h1 : t.length + 1 + k = t.length + (k + 1) := by omega
      rw [h1, Nat.add_div_right _ (Nat.succ_pos k)]
      rcases le_or_lt k t.length with h | h
      · have h2 : t.length + 1 - (k + 1) + k = t.length := by omega
        rw [h2]
      · have h2 : t.length + 1 - (k + 1) + k = k := by omega
        rw [h2, Nat.div_eq_of_lt (by omega), Nat.div_eq_of_lt (by omega)]

theorem renderChunk_strip_ne_empty :
    ∀ (g : List SlideRecord), g ≠ [] → pyStrip (renderChunk g) ≠ "" := by
  intro g hg
  cases g with
  | nil => exact absurd rfl hg
  | cons s rest =>
    have hmem : '[' ∈ (renderChunk (s :: rest)).toList := by
      show '[' ∈ (renderSlide s ++ renderChunk rest).data
      rw [String.data_append]
      apply List.mem_append_left
      simp only [renderSlide, String.data_append, List.mem_append]
      refine Or.inl (Or.inl (Or.inl (Or.inl ?_)))
      decide
    exact pyStrip_ne_empty hmem (by decide)

theorem chunk_slides_eq_map (slides : List SlideRecord) (k : Nat)
    (h : ∀ g ∈ groupChunks k slides, g ≠ []) :
    chunk_slides slides k = (groupChunks k slides).map (fun g => pyStrip (renderChunk g)) := by
  unfold chunk_slides
  revert h
  generalize groupChunks k slides = gs
  intro h
  induction gs with
  | nil => rfl
  | cons g rest ih =>
    have hne := renderChunk_strip_ne_empty g (h g (List.mem_cons_self _ _))
    have hbt : (pyStrip (renderChunk g) != "") = true := bne_iff_ne.mpr hne
    simp only [List.filterMap_cons, List.map_cons, hbt, if_true]
    rw [ih (fun g2 hg2 => h g2 (List.mem_cons_of_mem _ hg2))]

/-- C7.  `chunk_slides` is deterministic and order-preserving: the groups
are the consecutive windows of at most `k` slides whose concatenation is
the input in original order; each chunk is exactly the stripped rendering
of its group; equal inputs give equal outputs; and on any 7 slides with
`k = 3` the groups are slides 1–3, 4–6, 7 and there are exactly 3 chunks. -/
theorem chunk_slides_spec (slides : List SlideRecord) (k : Nat) (hk : 0 < k) :
    (groupChunks k slides).flatten = slides
  ∧ (∀ g ∈ groupChunks k slides, g.length ≤ k ∧ g ≠ [])
  ∧ chunk_slides slides k = (groupChunks k slides).map (fun g => pyStrip (renderChunk g))
  ∧ (∀ slides2 k2, slides = slides2 → k = k2 → chunk_slides slides k = chunk_slides slides2 k2)
  ∧ (slides.length = 7 → k = 3 →
      groupChunks k slides = [slides.take 3, (slides.drop 3).take 3, slides.drop 6]
      ∧ (chunk_slides slides k).length = 3) := by
  obtain ⟨m, rfl⟩ : ∃ m, k = m + 1 := ⟨k - 1, by omega⟩
  have hgr := groupChunks_groups slides.length m slides le_rfl
  have hmap := chunk_slides_eq_map slides (m + 1) (fun g hg => (hgr g hg).2)
  refine ⟨groupChunks_join slides.length m slides le_rfl, hgr, hmap, ?_, ?_⟩
  · intro s2 k2 h1 h2
    rw [h1, h2]
  · intro h7 h3
    have hm : m = 2 := by omega
    subst hm
    have hne1 : slides ≠ [] := by
      intro h; rw [h] at h7; simp at h7
    have hne2 : slides.drop 3 ≠ [] := by
      intro h
      have := congrArg List.length h
      simp [List.length_drop, h7] at this
    have hne3 : slides.drop 6 ≠ [] := by
      intro h
      have := congrArg List.length h
      simp [List.length_drop, h7] at this
    have e3 : (slides.drop 3).drop 3 = slides.drop 6 := by
      rw [List.drop_drop]
    have e5 : (slides.drop 6).drop 3 = [] := by
      rw [List.drop_drop]
      exact List.drop_eq_nil_of_le (by omega)
    have e6 : (slides.drop 6).take 3 = slides.drop 6 :=
      List.take_of_length_le (by simp [List.length_drop, h7])
    have egroups : groupChunks 3 slides =
        [slides.take 3, (slides.drop 3).take 3, slides.drop 6] := by
      rw [groupChunks_cons 2 slides hne1, groupChunks_cons 2 _ hne2, e3,
        groupChunks_cons 2 _ hne3, e5, e6, groupChunks_nil]
    refine ⟨egroups, ?_⟩
    rw [hmap, egroups]
    simp

/-- C7, witness at 7 concrete slides and `k = 3`. -/
theorem chunk_slides_spec_witness :
    groupChunks 3 ((List.range 7).map (fun i => ⟨i + 1, "", ["c"]⟩)) =
      [((List.range 7).map (fun i => ⟨i + 1, "", ["c"]⟩)).take 3,
       (((List.range 7).map (fun i => ⟨i + 1, "", ["c"]⟩)).drop 3).take 3,
       ((List.range 7).map (fun i => (⟨i + 1, "", ["c"]⟩ : SlideRecord))).drop 6]
    ∧ (chunk_slides ((List.range 7).map (fun i => ⟨i + 1, "", ["c"]⟩)) 3).length = 3 :=
  (chunk_slides_spec ((List.range 7).map (fun i => ⟨i + 1, "", ["c"]⟩)) 3
    (by decide)).2.2.2.2 (by decide) rfl

/-- C9.  With a positive chunk size and a non-empty slide list,
`chunk_slides` returns exactly `⌈n / k⌉` chunks: the branch dropping
blank-rendered groups never fires, because every group is non-empty and its
rendering contains the non-whitespace slide marker, so its stripped text is
never empty. -/
theorem chunk_slides_count (slides : List SlideRecord) (k : Nat) (hk : 0 < k)
    (hs : slides ≠ []) :
    (chunk_slides slides k).length = (slides.length + k - 1) / k
    ∧ ∀ g ∈ groupChunks k slides, pyStrip (renderChunk g) ≠ "" := by
  obtain ⟨m, rfl⟩ : ∃ m, k = m + 1 := ⟨k - 1, by omega⟩
  have hne : ∀ g ∈ groupChunks (m + 1) slides, g ≠ [] :=
    fun g hg => (groupChunks_groups slides.length m slides le_rfl g hg).2
  constructor
  · rw [chunk_slides_eq_map _ _ hne, List.length_map,
      groupChunks_length slides.length m slides le_rfl]
    congr 1
  · intro g hg
    exact renderChunk_strip_ne_empty g (hne g hg)

/-- C9, witness: 7 one-line slides, `k = 3`, exactly `⌈7/3⌉ = 3` chunks. -/
theorem chunk_slides_count_witness :
    (chunk_slides ((List.range 7).map (fun i => ⟨i + 1, "t", ["c"]⟩)) 3).length =
      (((List.range 7).map (fun i => (⟨i + 1, "t", ["c"]⟩ : SlideRecord))).length + 3 - 1) / 3 :=
  (chunk_slides_count ((List.range 7).map (fun i => ⟨i + 1, "t", ["c"]⟩)) 3
    (by decide) (by decide)).1

theorem runChunks_stop (gen : String → List QuestionRecord) (target : Nat) :
    ∀ (cs : List String) (acc : List QuestionRecord) (m : Nat), 0 < m →
      target ≤ acc.length + prefixLen gen cs m →
      (runChunks gen target acc cs).2 ≤ m := by
  intro cs
  induction cs with
  | nil =>
    intro acc m hm _
    simp [runChunks]
  | cons c rest ih =>
    intro acc m hm hreach
    simp only [runChunks]
    split
    · exact hm
    · next hlt =>
      obtain ⟨m2, rfl⟩ : ∃ m2, m = m2 + 1 := ⟨m - 1, by omega⟩
      have hpre : prefixLen gen (c :: rest) (m2 + 1) =
          (gen c).length + prefixLen gen rest m2 := by
        simp [prefixLen, List.take_succ_cons]
      rw [hpre] at hreach
      have hnotyet : ¬ target ≤ acc.length + (gen c).length := by
        intro h
        exact hlt (by simpa [List.length_append] using h)
      have hm2 : 0 < m2 := by
        rcases Nat.eq_zero_or_pos m2 with h0 | h
        · subst h0
          simp [prefixLen] at hreach
          exact absurd hreach hnotyet
        · exact h
      have hrec := ih (acc ++ gen c) m2 hm2
        (by simp only [List.length_append]; omega)
      simp only []
      omega

/-- C2.  For every `/process-pptx` run, the question list persisted in the
quiz document is never longer than `questionCount`, and the loop makes no
further generation call once the accumulated count has reached
`questionCount`: whenever the questions yielded by the first `m ≥ 1` chunks
already reach the target, at most `m` chunks are ever visited ("reaching"
is the post-append check of the loop, so the bound is stated for `m ≥ 1`;
the accumulator starts empty). -/
theorem process_pptx_question_bound (jobId storagePath userId : Option String)
    (folderName : String) (questionCount : Nat) (tags keywords : List String)
    (raw : List RawSlide) (gen : String → List QuestionRecord)
    (downloadError : Option String) (newQuizId : String) :
    (∀ qd, (process_pptx jobId storagePath userId folderName questionCount tags
        keywords raw gen downloadError newQuizId).quizWritten = some qd →
      qd.questions.length ≤ questionCount)
  ∧ (∀ m, 0 < m →
      questionCount ≤ prefixLen gen (chunk_slides (extract_text_from_pptx raw) 3) m →
      (process_pptx jobId storagePath userId folderName questionCount tags
        keywords raw gen downloadError newQuizId).genCalls ≤ m) := by
  cases hb : (truthy jobId && truthy storagePath && truthy userId) with
  | false =>
    simp only [process_pptx, hb, Bool.not_false, if_true]
    exact ⟨fun qd h => Option.noConfusion h, fun m _ _ => Nat.zero_le m⟩
  | true =>
    simp only [process_pptx, hb, Bool.not_true, if_false]
    cases downloadError with
    | some msg =>
      exact ⟨fun qd h => Option.noConfusion h, fun m _ _ => Nat.zero_le m⟩
    | none =>
      dsimp only
      cases hsl : (extract_text_from_pptx raw).isEmpty with
      | true =>
        rw [if_pos rfl]
        exact ⟨fun qd h => Option.noConfusion h, fun m _ _ => Nat.zero_le m⟩
      | false =>
        rw [if_neg Bool.false_ne_true]
        cases hq : ((runChunks gen questionCount []
            (chunk_slides (extract_text_from_pptx raw) 3)).1.take questionCount).isEmpty with
        | true =>
          rw [if_pos rfl]
          refine ⟨fun qd h => Option.noConfusion h, ?_⟩
          intro m hm hreach
          exact runChunks_stop gen questionCount _ [] m hm (by simpa using hreach)
        | false =>
          rw [if_neg Bool.false_ne_true]
          constructor
          · intro qd h
            cases h
            simp only [List.length_map, List.enum_length, List.length_take]
            omega
          · intro m hm hreach
            exact runChunks_stop gen questionCount _ [] m hm (by simpa using hreach)

/-- C2, witness: one slide, one chunk, a generator returning one question,
target 1: at most one generation call, applied at `m = 1`. -/
theorem process_pptx_question_bound_witness :
    (process_pptx (some "j") (some "p") (some "u") "f" 1 [] []
      [⟨"", ["hello material"]⟩]
      (fun _ => [⟨"q", ["a", "b", "c", "d"], 0, "e", ""⟩]) none "qid").genCalls ≤ 1 :=
  (process_pptx_question_bound (some "j") (some "p") (some "u") "f" 1 [] []
      [⟨"", ["hello material"]⟩]
      (fun _ => [⟨"q", ["a", "b", "c", "d"], 0, "e", ""⟩]) none "qid").2
    1 (by decide) (by decide)

theorem procUpd_ok (p : Nat) (msg : String) :
    (procUpd p msg).status = "failed" → (procUpd p msg).progress = 0 := by
  intro h
  simp [procUpd] at h

theorem failUpd_ok (e : String) :
    (failUpd e).status = "failed" → (failUpd e).progress = 0 := fun _ => rfl

/-- C8.  With the required request fields present and no injected
exception: if extraction yields no slide records the run returns 400, the
last status update is `failed`, and no quiz document is written; if the
final (truncated) question accumulator is empty the run returns 500, the
last status update is `failed`, and no quiz document is written. -/
theorem process_pptx_failure_paths (jobId storagePath userId : Option String)
    (folderName : String) (questionCount : Nat) (tags keywords : List String)
    (raw : List RawSlide) (gen : String → List QuestionRecord) (newQuizId : String)
    (hfields : (truthy jobId && truthy storagePath && truthy userId) = true) :
    (extract_text_from_pptx raw = [] →
        (process_pptx jobId storagePath userId folderName questionCount tags
            keywords raw gen none newQuizId).status = 400
      ∧ ((process_pptx jobId storagePath userId folderName questionCount tags
            keywords raw gen none newQuizId).updates.map JobUpdate.status).getLast?
          = some "failed"
      ∧ (process_pptx jobId storagePath userId folderName questionCount tags
            keywords raw gen none newQuizId).quizWritten = none)
  ∧ (extract_text_from_pptx raw ≠ [] →
      (runChunks gen questionCount []
          (chunk_slides (extract_text_from_pptx raw) 3)).1.take questionCount = [] →
        (process_pptx jobId storagePath userId folderName questionCount tags
            keywords raw gen none newQuizId).status = 500
      ∧ ((process_pptx jobId storagePath userId folderName questionCount tags
            keywords raw gen none newQuizId).updates.map JobUpdate.status).getLast?
          = some "failed"
      ∧ (process_pptx jobId storagePath userId folderName questionCount tags
            keywords raw gen none newQuizId).quizWritten = none) := by
  constructor
  · intro hempty
    simp only [process_pptx, hfields, Bool.not_true]
    rw [if_neg Bool.false_ne_true]
    rw [if_pos (by simp [hempty])]
    exact ⟨rfl, rfl, rfl⟩
  · intro hne hq
    simp only [process_pptx, hfields, Bool.not_true]
    rw [if_neg Bool.false_ne_true]
    rw [if_neg (by simp [hne]), if_pos (by simp [hq])]
    refine ⟨rfl, ?_, rfl⟩
    simp only [List.map_append, List.map_cons, List.map_nil, ← List.append_assoc]
    rw [List.getLast?_concat]
    rfl

/-- C8, witness: a presentation with no extractable text gives 400, a final
`failed` update, and no quiz write. -/
theorem process_pptx_failure_paths_witness :
    (process_pptx (some "a") (some "b") (some "c") "f" 10 [] [] []
        (fun _ => []) none "id").status = 400
    ∧ ((process_pptx (some "a") (some "b") (some "c") "f" 10 [] [] []
        (fun _ => []) none "id").updates.map JobUpdate.status).getLast? = some "failed"
    ∧ (process_pptx (some "a") (some "b") (some "c") "f" 10 [] [] []
        (fun _ => []) none "id").quizWritten = none :=
  (process_pptx_failure_paths (some "a") (some "b") (some "c") "f" 10 [] [] []
    (fun _ => []) "id" (by decide)).1 rfl

/-- C10.  On every path that marks the job `failed` — no extractable text,
zero questions after truncation, or the top-level exception handler — the
written update carries progress 0: every update in any run whose status is
`"failed"` has progress 0, so a poller sees the percentage drop back to 0
on failure. -/
theorem process_pptx_failed_progress_zero (jobId storagePath userId : Option String)
    (folderName : String) (questionCount : Nat) (tags keywords : List String)
    (raw : List RawSlide) (gen : String → List QuestionRecord)
    (downloadError : Option String) (newQuizId : String) :
    ∀ u ∈ (process_pptx jobId storagePath userId folderName questionCount tags
        keywords raw gen downloadError newQuizId).updates,
      u.status = "failed" → u.progress = 0 := by
  cases hb : (truthy jobId && truthy storagePath && truthy userId) with
  | false =>
    intro u hu
    simp only [process_pptx, hb, Bool.not_false, if_true] at hu
    exact absurd hu (List.not_mem_nil u)
  | true =>
    cases downloadError with
    | some msg =>
      intro u hu
      simp only [process_pptx, hb, Bool.not_true] at hu
      rw [if_neg Bool.false_ne_true] at hu
      simp only [List.mem_cons, List.not_mem_nil, or_false] at hu
      rcases hu with rfl | rfl
      · exact procUpd_ok _ _
      · exact failUpd_ok _
    | none =>
      intro u hu
      simp only [process_pptx, hb, Bool.not_true] at hu
      rw [if_neg Bool.false_ne_true] at hu
      cases hsl : (extract_text_from_pptx raw).isEmpty with
      | true =>
        rw [hsl, if_pos rfl] at hu
        simp only [List.mem_cons, List.not_mem_nil, or_false] at hu
        rcases hu with rfl | rfl | rfl
        · exact procUpd_ok _ _
        · exact procUpd_ok _ _
        · exact failUpd_ok _
      | false =>
        rw [hsl, if_neg Bool.false_ne_true] at hu
        cases hq : ((runChunks gen questionCount []
            (chunk_slides (extract_text_from_pptx raw) 3)).1.take questionCount).isEmpty with
        | true =>
          rw [hq, if_pos rfl] at hu
          simp only [List.mem_append, List.mem_cons, List.not_mem_nil, or_false,
            List.mem_map, List.mem_range] at hu
          rcases hu with ((rfl | rfl | rfl) | ⟨i, -, rfl⟩) | rfl
          · exact procUpd_ok _ _
          · exact procUpd_ok _ _
          · exact procUpd_ok _ _
          · exact procUpd_ok _ _
          · exact failUpd_ok _
        | false =>
          rw [hq, if_neg Bool.false_ne_true] at hu
          simp only [List.mem_append, List.mem_cons, List.not_mem_nil, or_false,
            List.mem_map, List.mem_range] at hu
          rcases hu with ((rfl | rfl | rfl) | ⟨i, -, rfl⟩) | rfl | rfl
          · exact procUpd_ok _ _
          · exact procUpd_ok _ _
          · exact procUpd_ok _ _
          · exact procUpd_ok _ _
          · exact procUpd_ok _ _
          · intro h
            exact absurd h (by simp)

/-- C10, witness: the no-extractable-text failure update of a concrete run
carries progress 0. -/
theorem process_pptx_failed_progress_zero_witness :
    (failUpd "슬라이드에서 텍스트를 찾을 수 없습니다.").progress = 0 :=
  process_pptx_failed_progress_zero (some "a") (some "b") (some "c") "f" 10 [] [] []
    (fun _ => []) none "id" (failUpd "슬라이드에서 텍스트를 찾을 수 없습니다.")
    (by decide) rfl
